import Mathlib

/-!
# Verification of the pdf2excel extraction-and-normalization pipeline

Shallow embedding of `src/app.py` (a Streamlit PDF-to-Excel converter):

* `make_columns_unique` — the header normalizer (app.py lines 23-35);
* `extract_ocr_table_from_image` — OCR line reconstruction (lines 44-60),
  modelled over the word/line data returned by the OCR service;
* `pd_concat` — the dataset merger (line 102), modelled from the documented
  behaviour of `pandas.concat(_, ignore_index=True)`: column union in
  first-seen order, missing cells filled with a null marker;
* `pipeline` — the orchestrator (lines 63-127): text-layer extraction per
  page, conditional OCR fallback for pages not marked text-based, merge.

Python strings become `String`, `None`-able values become `Option`,
dataframes become a `Frame` structure (column labels plus rows of optional
cells).
-/

namespace PdfToExcel

/-! ## Header normalizer (app.py lines 23-35)

Python:
```
def make_columns_unique(columns):
    seen = {}
    new_columns = []
    for col in columns:
        if col is None or col.strip() == "":
            col = "Unnamed"
        if col in seen:
            seen[col] += 1
            new_columns.append(f"{col}_{seen[col]}")
        else:
            seen[col] = 0
            new_columns.append(col)
    return new_columns
```
The dict `seen` is embedded as a function `String → Option Nat`; the
f-string renders the counter with `Nat.repr`, the embedding of `str` on a
non-negative integer. -/

/-- Python's `str.strip()`: remove leading and trailing whitespace. -/
def pyStrip (s : String) : String :=
  ⟨((s.data.dropWhile Char.isWhitespace).reverse.dropWhile Char.isWhitespace).reverse⟩

/-- `if col is None or col.strip() == "": col = "Unnamed"` (app.py lines 27-28). -/
def normLabel (col : Option String) : String :=
  match col with
  | none => "Unnamed"
  | some s => if pyStrip s = "" then "Unnamed" else s

/-- The loop body of `make_columns_unique` (app.py lines 26-34), threading the
`seen` dictionary. -/
def mcuGo : List (Option String) → (String → Option Nat) → List String
  | [], _ => []
  | col :: rest, seen =>
    let c := normLabel col
    match seen c with
    | some k => (c ++ "_" ++ Nat.repr (k + 1)) :: mcuGo rest (fun x => if x = c then some (k + 1) else seen x)
    | none => c :: mcuGo rest (fun x => if x = c then some 0 else seen x)

/-- `make_columns_unique` (app.py lines 23-35). -/
def make_columns_unique (columns : List (Option String)) : List String :=
  mcuGo columns (fun _ => none)

example : make_columns_unique [some "A", some "A", some "A"] = ["A", "A_1", "A_2"] := by decide

example : make_columns_unique [some "", none, some "X"] = ["Unnamed", "Unnamed_1", "X"] := by decide

example : make_columns_unique [some "A", some "A", some "A_1"] = ["A", "A_1", "A_1"] := by decide

/-! ## Dataframes

A `Frame` embeds the observable content of a `pandas.DataFrame` as used by
app.py: an ordered list of column labels and a list of rows; a cell is
`Option String` (`none` embeds `None`/`NaN`). -/

/-- The observable content of a `pandas.DataFrame` in app.py: column labels
plus rows of optional string cells. -/
structure Frame where
  columns : List String
  rows : List (List (Option String))
deriving DecidableEq, Repr

/-- `pd.DataFrame()` — the empty dataframe returned on the failure paths of
`extract_ocr_table_from_image` (app.py lines 50, 56). -/
def Frame.empty : Frame := ⟨[], []⟩

/-- `df.empty` in pandas: true iff either axis has length zero. -/
def Frame.isEmpty (f : Frame) : Bool := f.rows.isEmpty || f.columns.isEmpty

/-! ## OCR table extraction (app.py lines 44-60)

Python (after the image preprocessing, which has no table-logic semantics):
```
ocr_data = pytesseract.image_to_data(...)            -- external OCR service
ocr_data = ocr_data.dropna(subset=['text'])
if ocr_data.empty: return pd.DataFrame()
lines = ocr_data.groupby('line_num')['text'].apply(lambda x: ' '.join(x)).tolist()
table_lines = [line for line in lines if any(char.isdigit() for char in line)]
if not table_lines or len(table_lines) < 2: return pd.DataFrame()
headers = table_lines[0].split()
rows = [line.split() for line in table_lines[1:] if len(line.split()) == len(headers)]
return pd.DataFrame(rows, columns=make_columns_unique(headers))
```
The OCR service output is embedded as a list of `OcrWord`s (recognized text
fragment, `none` for a NaN entry, with its line number); `groupby` sorts the
line numbers ascending and preserves input order within each group. -/

/-- One row of the word-level dataframe returned by the OCR service: the
`line_num` field and the `text` field (`none` embeds NaN). -/
structure OcrWord where
  line_num : Nat
  text : Option String
deriving DecidableEq, Repr

/-- Insert `n` into an ascending list of naturals, keeping it ascending. -/
def insertAsc (n : Nat) : List Nat → List Nat
  | [] => [n]
  | m :: ms => if n ≤ m then n :: m :: ms else m :: insertAsc n ms

/-- Sort a list of naturals ascending (insertion sort). -/
def sortNats (ns : List Nat) : List Nat := ns.foldr insertAsc []

/-- The distinct elements of `ns` in first-seen order. -/
def dedupNats (ns : List Nat) : List Nat :=
  ns.foldl (fun acc n => if n ∈ acc then acc else acc ++ [n]) []

/-- Helper for `pySplit`: walk the characters, accumulating the current token
in reverse. -/
def pySplitGo : List Char → List Char → List String
  | [], cur => if cur.isEmpty then [] else [⟨cur.reverse⟩]
  | c :: cs, cur =>
    if c.isWhitespace then
      (if cur.isEmpty then pySplitGo cs [] else ⟨cur.reverse⟩ :: pySplitGo cs [])
    else pySplitGo cs (c :: cur)

/-- Python's no-argument `str.split()`: split on whitespace runs, producing no
empty tokens. -/
def pySplit (s : String) : List String := pySplitGo s.data []

/-- `any(char.isdigit() for char in line)` (app.py line 53). -/
def hasDigit (s : String) : Bool := s.data.any Char.isDigit

/-- `lines` (app.py lines 48-52): drop NaN-text words, group the rest by
`line_num` in ascending line-number order, join each group with spaces. -/
def ocrLines (words : List OcrWord) : List String :=
  let kept := words.filter (fun w => w.text.isSome)
  (sortNats (dedupNats (kept.map (fun w => w.line_num)))).map
    (fun ln => String.intercalate " "
      ((kept.filter (fun w => w.line_num == ln)).map (fun w => w.text.getD "")))

/-- `table_lines` (app.py line 53): the reconstructed lines containing at
least one digit. -/
def tableLines (words : List OcrWord) : List String :=
  (ocrLines words).filter hasDigit

/-- `extract_ocr_table_from_image` (app.py lines 44-60), over the word data
returned by the OCR service for the (preprocessed) page image. The
two-element match realizes the `len(table_lines) < 2` guard (line 55);
`table_lines[0]` supplies the headers and `table_lines[1:]` the candidate
rows (lines 58-59). -/
def extract_ocr_table_from_image (words : List OcrWord) : Frame :=
  if (words.filter (fun w => w.text.isSome)).isEmpty then Frame.empty
  else
    match tableLines words with
    | hl :: l1 :: rest =>
      let headers := pySplit hl
      ⟨make_columns_unique (headers.map some),
       ((l1 :: rest).filter (fun l => (pySplit l).length == headers.length)).map
         (fun l => (pySplit l).map some)⟩
    | _ => Frame.empty

example :
    extract_ocr_table_from_image
      [⟨1, some "Roll"⟩, ⟨1, some "Name"⟩, ⟨1, some "Score"⟩,
       ⟨2, some "101"⟩, ⟨2, some "Alice"⟩, ⟨2, some "90"⟩, ⟨3, some "bad"⟩] = Frame.empty := by
  decide

example :
    extract_ocr_table_from_image
      [⟨1, some "Roll1"⟩, ⟨1, some "Name"⟩, ⟨1, some "Score"⟩,
       ⟨2, some "101"⟩, ⟨2, some "Alice"⟩, ⟨2, some "90"⟩,
       ⟨3, some "bad"⟩, ⟨3, some "1"⟩] =
      ⟨["Roll1", "Name", "Score"], [[some "101", some "Alice", some "90"]]⟩ := by
  decide

/-! ## Dataset merger (app.py line 102)

`final_df = pd.concat(all_tables, ignore_index=True)`.

`pandas.concat` is an external library service; its documented behaviour on
axis 0 with `ignore_index=True` (and default `join='outer'`, `sort=False`)
is the one the spec describes. Modelled from the spec: the result's columns
are the union of the inputs' columns preserving first-seen order; every row
of every input appears, in input order, reindexed to the unified columns
with missing cells set to the null marker `none`. -/

/-- The value of row `row` (laid out under labels `fcols`) at column `c`:
pandas reindexing by label, `none` when the frame lacks the column. -/
def colValue (fcols : List String) (row : List (Option String)) (c : String) : Option String :=
  match fcols, row with
  | fc :: fcs, v :: vs => if fc = c then v else colValue fcs vs c
  | _, _ => none

/-- Reindex one row from its frame's columns `fcols` to the unified columns
`cols`, padding missing columns with `none`. -/
def reindexRow (cols fcols : List String) (row : List (Option String)) : List (Option String) :=
  cols.map (colValue fcols row)

/-- The unified column list of `pd.concat`: union of the inputs' columns in
first-seen order. -/
def concatCols (frames : List Frame) : List String :=
  frames.foldl (fun acc f => acc ++ f.columns.filter (fun c => c ∉ acc)) []

/-- `pd.concat(frames, ignore_index=True)` (app.py line 102). -/
def pd_concat (frames : List Frame) : Frame :=
  ⟨concatCols frames,
   frames.flatMap (fun f => f.rows.map (reindexRow (concatCols frames) f.columns))⟩

/-! ## Orchestrator (app.py lines 63-127)

One uploaded PDF is embedded as a list of `Page`s: per page, the tables the
text-extraction service returns for it (`page.extract_tables()`, a list of
rows of optional string cells), the plain text (`page.extract_text()`), and
the OCR word data obtained from the page's rendered image
(`convert_from_bytes` renders every page, in order). -/

/-- One PDF page, as seen through the external services app.py calls. -/
structure Page where
  tables : List (List (List (Option String)))
  text : Option String
  words : List OcrWord
deriving DecidableEq, Repr

/-- `if table and len(table) > 1` (app.py line 77): a table is kept only when
it is non-empty and has more than one row. -/
def usableTable (t : List (List (Option String))) : Bool :=
  !t.isEmpty && decide (1 < t.length)

/-- `pd.DataFrame(table[1:], columns=make_columns_unique(table[0]))`
(app.py lines 78-79). -/
def tableToFrame (t : List (List (Option String))) : Frame :=
  match t with
  | [] => Frame.empty
  | h :: rest => ⟨make_columns_unique h, rest⟩

/-- The dataframes page `p` appends to `all_tables` in Step 1 (app.py lines
74-80): one per usable extracted table; none when `extract_tables()` returns
`[]`, since the `if tables:` branch is skipped. -/
def pageFrames (p : Page) : List Frame :=
  (p.tables.filter usableTable).map tableToFrame

/-- All dataframes collected by Step 1 over the whole PDF, in page order. -/
def step1Frames (pages : List Page) : List Frame :=
  pages.flatMap pageFrames

/-- `text_based_pages` (app.py lines 66, 81): the indices of pages whose
`extract_tables()` returned a non-empty list — recorded whether or not any
of those tables was usable. -/
def text_based_pages (pages : List Page) : List Nat :=
  (pages.enum.filter (fun ip => !ip.2.tables.isEmpty)).map (fun ip => ip.1)

/-- Step 2's contribution of one (index, page) pair (app.py lines 93-98):
nothing when the page is marked text-based; otherwise the OCR result when it
is non-empty. -/
def ocrPageContrib (pages : List Page) (ip : Nat × Page) : List Frame :=
  if ip.1 ∈ text_based_pages pages then []
  else
    let df := extract_ocr_table_from_image ip.2.words
    if df.isEmpty then [] else [df]

/-- All dataframes appended by the OCR fallback (Step 2), in page order. -/
def ocrFrames (pages : List Page) : List Frame :=
  pages.enum.flatMap (ocrPageContrib pages)

/-- The 1-based page numbers recorded in `ocr_applied_pages` (app.py
line 98). -/
def ocr_applied_pages (pages : List Page) : List Nat :=
  (pages.enum.filter (fun ip =>
      decide (ip.1 ∉ text_based_pages pages) &&
      !(extract_ocr_table_from_image ip.2.words).isEmpty)).map (fun ip => ip.1 + 1)

/-- `all_tables` at the start of Step 3 (app.py line 101). -/
def allTables (pages : List Page) (enable_ocr : Bool) : List Frame :=
  step1Frames pages ++ (if enable_ocr then ocrFrames pages else [])

/-- The outcome of Step 3 (app.py lines 101-127): either a merged dataset
(with the OCR-applied page report) exported to the download button, or the
`"No tables or OCR results were found"` warning with no output file. -/
inductive Outcome where
  | success (dataset : Frame) (ocrPages : List Nat) : Outcome
  | noTables : Outcome
deriving DecidableEq, Repr

/-- The pipeline over one uploaded PDF (app.py lines 63-127). -/
def pipeline (pages : List Page) (enable_ocr : Bool) : Outcome :=
  let all_tables := allTables pages enable_ocr
  if all_tables.isEmpty then Outcome.noTables
  else Outcome.success (pd_concat all_tables)
    (if enable_ocr then ocr_applied_pages pages else [])

/-! ## Decimal rendering facts

`make_columns_unique` suffixes duplicates with `Nat.repr` (the embedding of
Python's `str` on the counter). The uniqueness analysis needs that decimal
strings contain no underscore and that `Nat.repr` is injective. -/

/-- The numeric value of a decimal digit character. -/
def digitVal (c : Char) : Nat := c.toNat - 48

theorem digitVal_digitChar : ∀ d, d < 10 → digitVal (Nat.digitChar d) = d := by decide

theorem digitChar_ne_underscore : ∀ d, d < 10 → Nat.digitChar d ≠ '_' := by decide

/-- `Nat.toDigitsCore` prepends to its accumulator. -/
theorem toDigitsCore_append (fuel : Nat) :
    ∀ (n : Nat) (ds : List Char),
      Nat.toDigitsCore 10 fuel n ds = Nat.toDigitsCore 10 fuel n [] ++ ds := by
  induction fuel with
  | zero => intro n ds; simp [Nat.toDigitsCore]
  | succ f ih =>
    intro n ds
    simp only [Nat.toDigitsCore]
    by_cases h : n / 10 = 0
    · simp [h]
    · simp only [h, if_false]
      rw [ih (n / 10) (Nat.digitChar (n % 10) :: ds), ih (n / 10) [Nat.digitChar (n % 10)]]
      simp

/-- Reading the digit list produced by `Nat.toDigitsCore` back as a decimal
number recovers the input. -/
theorem foldl_toDigitsCore (fuel : Nat) :
    ∀ n, n < fuel →
      (Nat.toDigitsCore 10 fuel n []).foldl (fun a c => a * 10 + digitVal c) 0 = n := by
  induction fuel with
  | zero => intro n h; omega
  | succ f ih =>
    intro n h
    simp only [Nat.toDigitsCore]
    by_cases h0 : n / 10 = 0
    · have hn : n < 10 := by omega
      simp only [h0, if_true, List.foldl]
      rw [digitVal_digitChar (n % 10) (by omega)]
      omega
    · simp only [h0, if_false]
      rw [toDigitsCore_append, List.foldl_append]
      have h1 : n / 10 < f := by omega
      rw [ih (n / 10) h1]
      simp only [List.foldl]
      rw [digitVal_digitChar (n % 10) (by omega)]
      omega

/-- `Nat.repr` is injective: distinct counters give distinct suffixes. -/
theorem repr_injective : ∀ m n : Nat, Nat.repr m = Nat.repr n → m = n := by
  intro m n h
  have hd : Nat.toDigitsCore 10 (m + 1) m [] = Nat.toDigitsCore 10 (n + 1) n [] :=
    congrArg String.data h
  have hm := foldl_toDigitsCore (m + 1) m (Nat.lt_succ_self m)
  have hn := foldl_toDigitsCore (n + 1) n (Nat.lt_succ_self n)
  rw [hd] at hm
  omega

/-- Every character of a decimal rendering is a digit character. -/
theorem mem_toDigitsCore (fuel : Nat) :
    ∀ n c, c ∈ Nat.toDigitsCore 10 fuel n [] → ∃ d, d < 10 ∧ c = Nat.digitChar d := by
  induction fuel with
  | zero => intro n c h; simp [Nat.toDigitsCore] at h
  | succ f ih =>
    intro n c h
    simp only [Nat.toDigitsCore] at h
    by_cases h0 : n / 10 = 0
    · simp only [h0, if_true, List.mem_singleton] at h
      exact ⟨n % 10, by omega, h⟩
    · rw [if_neg h0, toDigitsCore_append] at h
      rcases List.mem_append.mp h with h1 | h1
      · exact ih _ c h1
      · simp only [List.mem_singleton] at h1
        exact ⟨n % 10, by omega, h1⟩

/-- No decimal rendering contains an underscore. -/
theorem underscore_not_mem_repr (n : Nat) : '_' ∉ (Nat.repr n).data := by
  intro h
  obtain ⟨d, hd, he⟩ := mem_toDigitsCore (n + 1) n '_' h
  exact digitChar_ne_underscore d hd he.symm

/-! ## String splitting at a unique marker -/

/-- A marker element that occurs in neither prefix splits an equation of
marked concatenations. -/
theorem append_marker_inj {α : Type} {x : α} :
    ∀ (a₁ a₂ b₁ b₂ : List α), x ∉ a₁ → x ∉ a₂ →
      a₁ ++ x :: b₁ = a₂ ++ x :: b₂ → a₁ = a₂ ∧ b₁ = b₂ := by
  intro a₁
  induction a₁ with
  | nil =>
    intro a₂ b₁ b₂ _ h₂ heq
    cases a₂ with
    | nil => simpa using heq
    | cons y ys =>
      simp only [List.nil_append, List.cons_append, List.cons.injEq] at heq
      exact absurd (heq.1 ▸ List.mem_cons_self y ys) h₂
  | cons z zs ih =>
    intro a₂ b₁ b₂ h₁ h₂ heq
    cases a₂ with
    | nil =>
      simp only [List.nil_append, List.cons_append, List.cons.injEq] at heq
      exact absurd (heq.1 ▸ List.mem_cons_self z zs) h₁
    | cons y ys =>
      simp only [List.cons_append, List.cons.injEq] at heq
      obtain ⟨rfl, heq⟩ := heq
      obtain ⟨h, h'⟩ := ih ys b₁ b₂ (fun hm => h₁ (List.mem_cons_of_mem _ hm))
        (fun hm => h₂ (List.mem_cons_of_mem _ hm)) heq
      exact ⟨by rw [h], h'⟩

/-- The character data of a suffixed label `b ++ "_" ++ r`. -/
theorem data_suffixed (b r : String) : (b ++ "_" ++ r).data = b.data ++ '_' :: r.data := by
  simp

/-- Two suffixed labels with underscore-free bases agree iff base and decimal
suffix agree. -/
theorem suffixed_inj {b c : String} {j k : Nat}
    (hb : '_' ∉ b.data) (hc : '_' ∉ c.data)
    (h : b ++ "_" ++ Nat.repr j = c ++ "_" ++ Nat.repr k) : b = c ∧ j = k := by
  have hdata : b.data ++ '_' :: (Nat.repr j).data = c.data ++ '_' :: (Nat.repr k).data := by
    rw [← data_suffixed, ← data_suffixed, h]
  obtain ⟨h1, h2⟩ := append_marker_inj b.data c.data _ _ hb hc hdata
  exact ⟨String.ext h1, repr_injective j k (String.ext h2)⟩

/-! ## Header normalizer lemmas -/

theorem mcuGo_length : ∀ (cols : List (Option String)) (seen : String → Option Nat),
    (mcuGo cols seen).length = cols.length := by
  intro cols
  induction cols with
  | nil => intro seen; rfl
  | cons col rest ih =>
    intro seen
    simp only [mcuGo]
    cases seen (normLabel col) with
    | none => simp [ih]
    | some k => simp [ih]

/-- Invariant for the uniqueness analysis: every label the loop will emit is
either underscore-free and not yet in `seen`, or a suffixed label whose
decimal counter exceeds anything `seen` records for its base. -/
def emittedOk (seen : String → Option Nat) (s : String) : Prop :=
  ('_' ∉ s.data ∧ seen s = none) ∨
  (∃ b j, s = b ++ "_" ++ Nat.repr j ∧ '_' ∉ b.data ∧ ∀ m, seen b = some m → m < j)

/-- A `seen` update (inserting `0` or bumping a counter) preserves
`emittedOk` downward: labels fine for the updated map were fine before. -/
theorem emittedOk_mono {seen : String → Option Nat} {c : String} {v : Nat} {s : String}
    (hv : (seen c = none ∧ v = 0) ∨ ∃ k, seen c = some k ∧ v = k + 1)
    (h : emittedOk (fun x => if x = c then some v else seen x) s) : emittedOk seen s := by
  rcases h with ⟨h1, h2⟩ | ⟨b, j, heq, hb, hlt⟩
  · left
    refine ⟨h1, ?_⟩
    by_cases hx : s = c
    · simp [hx] at h2
    · simpa [hx] using h2
  · right
    refine ⟨b, j, heq, hb, fun m hm => ?_⟩
    by_cases hx : b = c
    · subst hx
      have hvj := hlt v (by simp)
      rcases hv with ⟨hn, _⟩ | ⟨k, hk, hvk⟩
      · rw [hn] at hm; cases hm
      · rw [hk] at hm; injection hm with hm; omega
    · exact hlt m (by simpa [hx] using hm)

/-- Main loop invariant: under underscore-free labels, the emitted list has
no duplicates and every emitted label satisfies `emittedOk` for the incoming
`seen` map. -/
theorem mcuGo_nodup_aux : ∀ (cols : List (Option String)) (seen : String → Option Nat),
    (∀ col ∈ cols, '_' ∉ (normLabel col).data) →
    (mcuGo cols seen).Nodup ∧ ∀ s ∈ mcuGo cols seen, emittedOk seen s := by
  intro cols
  induction cols with
  | nil => intro seen _; simp [mcuGo]
  | cons col rest ih =>
    intro seen hno
    have hc : '_' ∉ (normLabel col).data := hno col (List.mem_cons_self _ _)
    have hrest : ∀ c ∈ rest, '_' ∉ (normLabel c).data :=
      fun c hc' => hno c (List.mem_cons_of_mem _ hc')
    simp only [mcuGo]
    cases hseen : seen (normLabel col) with
    | none =>
      obtain ⟨ihn, ihq⟩ := ih (fun x => if x = normLabel col then some 0 else seen x) hrest
      have hhead : normLabel col ∉ mcuGo rest (fun x => if x = normLabel col then some 0 else seen x) := by
        intro hmem
        rcases ihq _ hmem with ⟨_, h2⟩ | ⟨b, j, heq, _, _⟩
        · simp at h2
        · have : '_' ∈ (normLabel col).data := by
            rw [heq, data_suffixed]
            exact List.mem_append_right _ (List.mem_cons_self _ _)
          exact hc this
      refine ⟨List.nodup_cons.mpr ⟨hhead, ihn⟩, ?_⟩
      intro s hs
      rcases List.mem_cons.mp hs with rfl | hmem
      · exact Or.inl ⟨hc, hseen⟩
      · exact emittedOk_mono (Or.inl ⟨hseen, rfl⟩) (ihq s hmem)
    | some k =>
      obtain ⟨ihn, ihq⟩ := ih (fun x => if x = normLabel col then some (k + 1) else seen x) hrest
      have hhead : (normLabel col ++ "_" ++ Nat.repr (k + 1)) ∉
          mcuGo rest (fun x => if x = normLabel col then some (k + 1) else seen x) := by
        intro hmem
        rcases ihq _ hmem with ⟨h1, _⟩ | ⟨b, j, heq, hb, hlt⟩
        · apply h1
          rw [data_suffixed]
          exact List.mem_append_right _ (List.mem_cons_self _ _)
        · obtain ⟨hbc, hjk⟩ := suffixed_inj hb hc heq.symm
          subst hbc
          have h2 := hlt (k + 1) (by simp)
          omega
      refine ⟨List.nodup_cons.mpr ⟨hhead, ihn⟩, ?_⟩
      intro s hs
      rcases List.mem_cons.mp hs with rfl | hmem
      · right
        refine ⟨normLabel col, k + 1, rfl, hc, fun m hm => ?_⟩
        rw [hseen] at hm
        injection hm with hm
        omega
      · exact emittedOk_mono (Or.inr ⟨k, hseen, rfl⟩) (ihq s hmem)

/-- On fresh (unseen), pairwise-distinct, non-blank labels the loop is the
identity. -/
theorem mcuGo_fresh : ∀ (xs : List String) (seen : String → Option Nat),
    xs.Nodup → (∀ s ∈ xs, pyStrip s ≠ "") → (∀ s ∈ xs, seen s = none) →
    mcuGo (xs.map some) seen = xs := by
  intro xs
  induction xs with
  | nil => intro seen _ _ _; rfl
  | cons x rest ih =>
    intro seen hnd hblank hfresh
    have hx : normLabel (some x) = x := by
      simp [normLabel, hblank x (List.mem_cons_self _ _)]
    simp only [List.map_cons, mcuGo, hx]
    rw [hfresh x (List.mem_cons_self _ _)]
    obtain ⟨hnotin, hnd'⟩ := List.nodup_cons.mp hnd
    rw [ih (fun y => if y = x then some 0 else seen y) hnd'
      (fun s hs => hblank s (List.mem_cons_of_mem _ hs))
      (fun s hs => by
        have : s ≠ x := fun h => hnotin (h ▸ hs)
        simp [this, hfresh s (List.mem_cons_of_mem _ hs)])]

/-- A `None` or blank entry at position `i` yields an output starting with
`"Unnamed"` at position `i`. -/
theorem mcuGo_unnamed_at : ∀ (cols : List (Option String)) (seen : String → Option Nat) (i : Nat),
    (cols.get? i = some none ∨ ∃ s, cols.get? i = some (some s) ∧ pyStrip s = "") →
    ∃ r, (mcuGo cols seen).get? i = some ("Unnamed" ++ r) := by
  intro cols
  induction cols with
  | nil => intro seen i h; rcases h with h | ⟨s, h, _⟩ <;> simp at h
  | cons col rest ih =>
    intro seen i h
    cases i with
    | zero =>
      have hcol : normLabel col = "Unnamed" := by
        rcases h with h | ⟨s, h, hs⟩
        · simp only [List.get?, Option.some.injEq] at h
          rw [h]
          rfl
        · simp only [List.get?, Option.some.injEq] at h
          rw [h]
          simp [normLabel, hs]
      simp only [mcuGo, hcol]
      cases seen "Unnamed" with
      | none =>
        refine ⟨"", ?_⟩
        have : "Unnamed" ++ "" = "Unnamed" := String.ext (by simp)
        simp [this]
      | some k =>
        refine ⟨"_" ++ Nat.repr (k + 1), ?_⟩
        have : "Unnamed" ++ "_" ++ Nat.repr (k + 1) = "Unnamed" ++ ("_" ++ Nat.repr (k + 1)) :=
          String.ext (by simp)
        simp [← this]
    | succ n =>
      have h' : rest.get? n = some none ∨ ∃ s, rest.get? n = some (some s) ∧ pyStrip s = "" := by
        rcases h with h | ⟨s, h, hs⟩
        · exact Or.inl h
        · exact Or.inr ⟨s, h, hs⟩
      simp only [mcuGo]
      cases seen (normLabel col) with
      | none => exact ih _ n h'
      | some k => exact ih _ n h'

/-! ## Dataset merger lemmas -/

theorem colValue_not_mem : ∀ (fcols : List String) (row : List (Option String)) (c : String),
    c ∉ fcols → colValue fcols row c = none := by
  intro fcols
  induction fcols with
  | nil => intro row c _; cases row <;> rfl
  | cons fc fcs ih =>
    intro row c hc
    simp only [List.mem_cons, not_or] at hc
    cases row with
    | nil => rfl
    | cons v vs =>
      simp only [colValue]
      rw [if_neg (fun h => hc.1 h.symm)]
      exact ih vs c hc.2

/-- Cells of a reindexed row under columns the source frame lacks are the
null marker. -/
theorem reindexRow_pad (cols fcols : List String) (row : List (Option String)) (c : String)
    (i : Nat) (hc : c ∉ fcols) (hi : cols[i]? = some c) :
    (reindexRow cols fcols row)[i]? = some none := by
  simp [reindexRow, List.getElem?_map, hi, colValue_not_mem fcols row c hc]

/-- The spec's description of the merged column list (§4.4): scan all column
names in table order and keep each name the first time it is seen. -/
def unionFirstSeen (colss : List (List String)) : List String :=
  (colss.flatMap id).foldl (fun acc c => if c ∈ acc then acc else acc ++ [c]) []

theorem union_step : ∀ (cs acc : List String), cs.Nodup →
    cs.foldl (fun acc c => if c ∈ acc then acc else acc ++ [c]) acc
      = acc ++ cs.filter (fun c => c ∉ acc) := by
  intro cs
  induction cs with
  | nil => intro acc _; simp
  | cons c cs' ih =>
    intro acc hnd
    obtain ⟨hcn, hnd'⟩ := List.nodup_cons.mp hnd
    simp only [List.foldl_cons, List.filter_cons]
    by_cases hm : c ∈ acc
    · rw [if_pos hm, if_neg (by simp [hm]), ih acc hnd']
    · rw [if_neg hm, if_pos (by simp [hm]), ih (acc ++ [c]) hnd']
      rw [List.filter_congr (fun x hx => ?_), List.append_assoc, List.singleton_append]
      have hxc : x ≠ c := fun h => hcn (h ▸ hx)
      simp [hxc]

theorem concatCols_aux : ∀ (frames : List Frame) (acc : List String),
    (∀ f ∈ frames, f.columns.Nodup) →
    frames.foldl (fun acc f => acc ++ f.columns.filter (fun c => c ∉ acc)) acc
      = (frames.flatMap Frame.columns).foldl
          (fun acc c => if c ∈ acc then acc else acc ++ [c]) acc := by
  intro frames
  induction frames with
  | nil => intro acc _; rfl
  | cons f fs ih =>
    intro acc h
    simp only [List.foldl_cons, List.flatMap_cons, List.foldl_append]
    rw [union_step f.columns acc (h f (List.mem_cons_self _ _)),
      ih _ (fun g hg => h g (List.mem_cons_of_mem _ hg))]

/-- The merged column list is exactly the spec's first-seen-order union,
provided each constituent table's columns are distinct (the
`NormalizedTable` invariant). -/
theorem concatCols_eq_unionFirstSeen (frames : List Frame)
    (h : ∀ f ∈ frames, f.columns.Nodup) :
    concatCols frames = unionFirstSeen (frames.map Frame.columns) := by
  unfold concatCols unionFirstSeen
  rw [concatCols_aux frames [] h]
  congr 1
  simp [List.flatMap_map]

/-! ## OCR extraction lemmas -/

theorem ocrLines_nil_of_filter_nil (words : List OcrWord)
    (h : words.filter (fun w => w.text.isSome) = []) : ocrLines words = [] := by
  simp [ocrLines, h, dedupNats, sortNats]

/-- Shape of the result when at least two qualifying lines exist: the first
one's tokens are the (normalized) header; the later ones are kept iff their
token count matches the header's. -/
theorem extract_spec : ∀ (words : List OcrWord) (hl l1 : String) (rest : List String),
    tableLines words = hl :: l1 :: rest →
    extract_ocr_table_from_image words =
      ⟨make_columns_unique ((pySplit hl).map some),
       ((l1 :: rest).filter (fun l => (pySplit l).length == (pySplit hl).length)).map
         (fun l => (pySplit l).map some)⟩ := by
  intro words hl l1 rest ht
  have hne : words.filter (fun w => w.text.isSome) ≠ [] := by
    intro h
    rw [tableLines, ocrLines_nil_of_filter_nil words h] at ht
    simp at ht
  have hk : (words.filter (fun w => w.text.isSome)).isEmpty = false := by
    simpa [List.isEmpty_iff] using hne
  simp [extract_ocr_table_from_image, hk, ht]

/-! ## Claim theorems -/

/-- C1 counterexample: on input `["A", "A", "A_1"]` the header normalizer
returns `["A", "A_1", "A_1"]`, whose elements are not pairwise distinct, so
the claimed unconditional uniqueness fails. -/
theorem C1_uniqueness_counterexample :
    make_columns_unique [some "A", some "A", some "A_1"] = ["A", "A_1", "A_1"] ∧
    ¬ (make_columns_unique [some "A", some "A", some "A_1"]).Nodup := by decide

/-- C1 (amended): the output length always equals the input length, and the
output values are pairwise distinct provided no normalized input label
contains an underscore. -/
theorem C1_length_and_unique (cols : List (Option String)) :
    (make_columns_unique cols).length = cols.length ∧
    ((∀ col ∈ cols, '_' ∉ (normLabel col).data) → (make_columns_unique cols).Nodup) :=
  ⟨mcuGo_length cols _, fun h => (mcuGo_nodup_aux cols _ h).1⟩

/-- C1 witness: at `["A", "A", None]` the underscore-freedom hypothesis holds
and the output has length 3 and is pairwise distinct. -/
theorem C1_length_and_unique_witness :
    (make_columns_unique [some "A", some "A", none]).length = 3 ∧
    (make_columns_unique [some "A", some "A", none]).Nodup :=
  ⟨(C1_length_and_unique [some "A", some "A", none]).1,
   (C1_length_and_unique [some "A", some "A", none]).2 (by decide)⟩

/-- C7: the normalizer replaces `None` and blank labels with `"Unnamed"` (in
general: the output at any such position starts with `"Unnamed"`), suffixes
repeats with an occurrence counter, and the spec's two examples hold
verbatim. -/
theorem C7_unnamed_and_suffixes :
    make_columns_unique [some "A", some "A", some "A"] = ["A", "A_1", "A_2"] ∧
    make_columns_unique [some "", none, some "X"] = ["Unnamed", "Unnamed_1", "X"] ∧
    ∀ (cols : List (Option String)) (i : Nat),
      (cols.get? i = some none ∨ ∃ s, cols.get? i = some (some s) ∧ pyStrip s = "") →
      ∃ r, (make_columns_unique cols).get? i = some ("Unnamed" ++ r) :=
  ⟨by decide, by decide, fun cols i h => mcuGo_unnamed_at cols _ i h⟩

/-- C7 witness: the whitespace-only label at position 0 of `[" ", "X"]` comes
out starting with `"Unnamed"`. -/
theorem C7_unnamed_and_suffixes_witness :
    ∃ r, (make_columns_unique [some " ", some "X"]).get? 0 = some ("Unnamed" ++ r) :=
  C7_unnamed_and_suffixes.2.2 [some " ", some "X"] 0 (Or.inr ⟨" ", rfl, by decide⟩)

/-- C8: on already pairwise-distinct, non-blank labels the normalizer is the
identity, hence idempotent. -/
theorem C8_idempotent (xs : List String) (hnd : xs.Nodup)
    (hblank : ∀ s ∈ xs, pyStrip s ≠ "") :
    make_columns_unique (xs.map some) = xs ∧
    make_columns_unique ((make_columns_unique (xs.map some)).map some)
      = make_columns_unique (xs.map some) := by
  have h : make_columns_unique (xs.map some) = xs :=
    mcuGo_fresh xs (fun _ => none) hnd hblank (fun _ _ => rfl)
  refine ⟨h, ?_⟩
  rw [h]
  exact h

/-- C8 witness: the distinct, non-blank input `["A", "B"]` is returned
unchanged. -/
theorem C8_idempotent_witness : make_columns_unique [some "A", some "B"] = ["A", "B"] :=
  (C8_idempotent ["A", "B"] (by decide) (by decide)).1

/-- C3: merging drops no row — every constituent row appears (reindexed) among
the merged rows, cells under columns a table lacks are padded with the null
marker, and the merged row count is the sum of the constituents' row
counts. -/
theorem C3_merge_row_counts (frames : List Frame) :
    (pd_concat frames).rows.length = (frames.map (fun f => f.rows.length)).sum ∧
    (∀ f ∈ frames, ∀ row ∈ f.rows,
      reindexRow (pd_concat frames).columns f.columns row ∈ (pd_concat frames).rows) ∧
    (∀ (cols fcols : List String) (row : List (Option String)) (c : String) (i : Nat),
      c ∉ fcols → cols[i]? = some c → (reindexRow cols fcols row)[i]? = some none) := by
  refine ⟨?_, ?_, fun cols fcols row c i hc hi => reindexRow_pad cols fcols row c i hc hi⟩
  · simp only [pd_concat, List.length_flatMap]
    congr 1
    apply List.map_congr_left
    intro f _
    simp [List.length_map]
  · intro f hf row hrow
    simp only [pd_concat]
    exact List.mem_flatMap.mpr ⟨f, hf, List.mem_map_of_mem _ hrow⟩

/-- C3 witness: in a two-frame merge the second frame's row survives
reindexing, and the cell under the column it lacks is the null marker. -/
theorem C3_merge_row_counts_witness :
    reindexRow (pd_concat [⟨["A"], [[some "x"]]⟩, ⟨["B"], [[some "y"]]⟩]).columns ["B"] [some "y"]
        ∈ (pd_concat [⟨["A"], [[some "x"]]⟩, ⟨["B"], [[some "y"]]⟩]).rows ∧
    (reindexRow ["A", "B"] ["B"] [some "y"])[0]? = some none :=
  ⟨(C3_merge_row_counts [⟨["A"], [[some "x"]]⟩, ⟨["B"], [[some "y"]]⟩]).2.1
      ⟨["B"], [[some "y"]]⟩ (by decide) [some "y"] (by decide),
   (C3_merge_row_counts []).2.2 ["A", "B"] ["B"] [some "y"] "A" 0 (by decide) (by decide)⟩

/-- C4: the merged column list is the union of the constituents' columns in
first-seen order (given the NormalizedTable distinct-columns invariant), and
rows appear in constituent order then row order, as on the spec's example. -/
theorem C4_union_and_order :
    (∀ frames : List Frame, (∀ f ∈ frames, f.columns.Nodup) →
      (pd_concat frames).columns = unionFirstSeen (frames.map Frame.columns)) ∧
    pd_concat [⟨["Name", "Score"], [[some "1", some "s1"], [some "2", some "s2"]]⟩,
               ⟨["Name", "Rank"], [[some "3", some "r3"]]⟩] =
      ⟨["Name", "Score", "Rank"],
       [[some "1", some "s1", none], [some "2", some "s2", none],
        [some "3", none, some "r3"]]⟩ :=
  ⟨fun frames h => concatCols_eq_unionFirstSeen frames h, by decide⟩

/-- C4 witness: first-seen union on two concrete single-column frames. -/
theorem C4_union_and_order_witness :
    (pd_concat [⟨["Name"], []⟩, ⟨["Rank"], []⟩]).columns
      = unionFirstSeen [["Name"], ["Rank"]] :=
  C4_union_and_order.1 [⟨["Name"], []⟩, ⟨["Rank"], []⟩] (by decide)

/-- C5 counterexample: from reconstructed lines `["Roll Name Score",
"101 Alice 90", "bad"]` the header line contains no digit, so it is filtered
out before header selection, only one qualifying line remains, and the
result is the empty frame — not the claimed header and row. -/
theorem C5_counterexample :
    extract_ocr_table_from_image
        [⟨1, some "Roll"⟩, ⟨1, some "Name"⟩, ⟨1, some "Score"⟩,
         ⟨2, some "101"⟩, ⟨2, some "Alice"⟩, ⟨2, some "90"⟩, ⟨3, some "bad"⟩] = Frame.empty ∧
    extract_ocr_table_from_image
        [⟨1, some "Roll"⟩, ⟨1, some "Name"⟩, ⟨1, some "Score"⟩,
         ⟨2, some "101"⟩, ⟨2, some "Alice"⟩, ⟨2, some "90"⟩, ⟨3, some "bad"⟩] ≠
      ⟨["Roll", "Name", "Score"], [[some "101", some "Alice", some "90"]]⟩ := by decide

/-- C5 (amended): the first qualifying (digit-containing) line's tokens,
normalized, become the header, and each later qualifying line is kept iff
its token count equals the header's; on lines `["Roll1 Name Score",
"101 Alice 90", "bad 1"]` the header is `["Roll1", "Name", "Score"]`, the
row `["101", "Alice", "90"]` is kept and `"bad 1"` is dropped. -/
theorem C5_header_and_rows :
    (∀ (words : List OcrWord) (hl l1 : String) (rest : List String),
      tableLines words = hl :: l1 :: rest →
      extract_ocr_table_from_image words =
        ⟨make_columns_unique ((pySplit hl).map some),
         ((l1 :: rest).filter (fun l => (pySplit l).length == (pySplit hl).length)).map
           (fun l => (pySplit l).map some)⟩) ∧
    extract_ocr_table_from_image
        [⟨1, some "Roll1"⟩, ⟨1, some "Name"⟩, ⟨1, some "Score"⟩,
         ⟨2, some "101"⟩, ⟨2, some "Alice"⟩, ⟨2, some "90"⟩,
         ⟨3, some "bad"⟩, ⟨3, some "1"⟩] =
      ⟨["Roll1", "Name", "Score"], [[some "101", some "Alice", some "90"]]⟩ :=
  ⟨extract_spec, by decide⟩

/-- C5 witness: a two-line instance of the general header/row rule. -/
theorem C5_header_and_rows_witness :
    extract_ocr_table_from_image [⟨1, some "h1"⟩, ⟨2, some "2"⟩] =
      ⟨make_columns_unique ((pySplit "h1").map some),
       (["2"].filter (fun l => (pySplit l).length == (pySplit "h1").length)).map
         (fun l => (pySplit l).map some)⟩ :=
  C5_header_and_rows.1 [⟨1, some "h1"⟩, ⟨2, some "2"⟩] "h1" "2" [] (by decide)

/-- C6: fewer than two digit-containing lines give the empty frame, and when
no candidate row's token count matches the header's the returned frame is
pandas-empty (zero rows). -/
theorem C6_empty_results (words : List OcrWord) :
    ((tableLines words).length < 2 → extract_ocr_table_from_image words = Frame.empty) ∧
    (∀ (hl l1 : String) (rest : List String), tableLines words = hl :: l1 :: rest →
      (l1 :: rest).filter (fun l => (pySplit l).length == (pySplit hl).length) = [] →
      (extract_ocr_table_from_image words).isEmpty = true) := by
  constructor
  · intro hlen
    by_cases hk : (words.filter (fun w => w.text.isSome)).isEmpty
    · simp [extract_ocr_table_from_image, hk]
    · have hkf : (words.filter (fun w => w.text.isSome)).isEmpty = false := by
        simpa using hk
      rcases h2 : tableLines words with _ | ⟨a, _ | ⟨b, t'⟩⟩
      · simp [extract_ocr_table_from_image, hkf, h2]
      · simp [extract_ocr_table_from_image, hkf, h2]
      · rw [h2] at hlen
        simp only [List.length_cons] at hlen
        omega
  · intro hl l1 rest ht hfil
    rw [extract_spec words hl l1 rest ht]
    simp [Frame.isEmpty, hfil]

/-- C6 witness: a single qualifying line gives the empty frame; two
qualifying lines with mismatched token counts give a pandas-empty frame. -/
theorem C6_empty_results_witness :
    extract_ocr_table_from_image [⟨1, some "7"⟩] = Frame.empty ∧
    (extract_ocr_table_from_image
        [⟨1, some "1a"⟩, ⟨1, some "b"⟩, ⟨2, some "2c"⟩]).isEmpty = true :=
  ⟨(C6_empty_results [⟨1, some "7"⟩]).1 (by decide),
   (C6_empty_results [⟨1, some "1a"⟩, ⟨1, some "b"⟩, ⟨2, some "2c"⟩]).2
      "1a b" "2c" [] (by decide) (by decide)⟩

/-- C2 counterexample: a page whose extraction service returns one single-row
(unusable) table is not classified as NoTables: it is marked text-based, its
OCR contribution is forced empty although OCR alone would find a table
there, and the run ends with no tables at all. -/
theorem C2_counterexample :
    0 ∈ text_based_pages
        [⟨[[[some "h"]]], none,
          [⟨1, some "Roll1"⟩, ⟨1, some "Name"⟩, ⟨1, some "Score"⟩,
           ⟨2, some "101"⟩, ⟨2, some "Alice"⟩, ⟨2, some "90"⟩]⟩] ∧
    ocrPageContrib
        [⟨[[[some "h"]]], none,
          [⟨1, some "Roll1"⟩, ⟨1, some "Name"⟩, ⟨1, some "Score"⟩,
           ⟨2, some "101"⟩, ⟨2, some "Alice"⟩, ⟨2, some "90"⟩]⟩]
        (0, ⟨[[[some "h"]]], none,
          [⟨1, some "Roll1"⟩, ⟨1, some "Name"⟩, ⟨1, some "Score"⟩,
           ⟨2, some "101"⟩, ⟨2, some "Alice"⟩, ⟨2, some "90"⟩]⟩) = [] ∧
    (extract_ocr_table_from_image
        [⟨1, some "Roll1"⟩, ⟨1, some "Name"⟩, ⟨1, some "Score"⟩,
         ⟨2, some "101"⟩, ⟨2, some "Alice"⟩, ⟨2, some "90"⟩]).isEmpty = false ∧
    pipeline
        [⟨[[[some "h"]]], none,
          [⟨1, some "Roll1"⟩, ⟨1, some "Name"⟩, ⟨1, some "Score"⟩,
           ⟨2, some "101"⟩, ⟨2, some "Alice"⟩, ⟨2, some "90"⟩]⟩] true
      = Outcome.noTables := by decide

/-- C2 (amended): a page for which the extraction service returns no tables
at all is not marked text-based, and when OCR is enabled its Step-2
contribution is exactly the OCR extraction result (kept iff non-empty). -/
theorem C2_no_tables_page_ocr_eligible (pages : List Page) (i : Nat) (p : Page)
    (hp : pages[i]? = some p) (hnil : p.tables = []) :
    i ∉ text_based_pages pages ∧
    ocrPageContrib pages (i, p) =
      (if (extract_ocr_table_from_image p.words).isEmpty then []
       else [extract_ocr_table_from_image p.words]) := by
  have hnot : i ∉ text_based_pages pages := by
    intro hmem
    simp only [text_based_pages, List.mem_map, List.mem_filter] at hmem
    obtain ⟨⟨j, q⟩, ⟨henum, hq⟩, hj⟩ := hmem
    simp only at hj
    subst hj
    have hjq := List.mk_mem_enum_iff_getElem?.mp henum
    rw [hp] at hjq
    injection hjq with hjq
    subst hjq
    simp [hnil] at hq
  refine ⟨hnot, ?_⟩
  simp [ocrPageContrib, hnot]

/-- C2 witness: a concrete table-less page is OCR-eligible and contributes
its OCR table. -/
theorem C2_no_tables_page_ocr_eligible_witness :
    0 ∉ text_based_pages [⟨[], none, [⟨1, some "h1"⟩, ⟨2, some "2"⟩]⟩] ∧
    ocrPageContrib [⟨[], none, [⟨1, some "h1"⟩, ⟨2, some "2"⟩]⟩]
        (0, ⟨[], none, [⟨1, some "h1"⟩, ⟨2, some "2"⟩]⟩) =
      (if (extract_ocr_table_from_image [⟨1, some "h1"⟩, ⟨2, some "2"⟩]).isEmpty then []
       else [extract_ocr_table_from_image [⟨1, some "h1"⟩, ⟨2, some "2"⟩]]) :=
  C2_no_tables_page_ocr_eligible [⟨[], none, [⟨1, some "h1"⟩, ⟨2, some "2"⟩]⟩] 0
    ⟨[], none, [⟨1, some "h1"⟩, ⟨2, some "2"⟩]⟩ rfl rfl

/-- C9: when both extraction paths produce nothing, the pipeline ends in the
no-tables warning outcome, which carries no dataset and no output bytes. -/
theorem C9_no_tables_outcome (pages : List Page) (b : Bool)
    (h1 : step1Frames pages = []) (h2 : b = true → ocrFrames pages = []) :
    pipeline pages b = Outcome.noTables := by
  have hall : allTables pages b = [] := by
    cases b with
    | false => simp [allTables, h1]
    | true => simp [allTables, h1, h2 rfl]
  simp [pipeline, hall]

/-- C9 witness: the empty document yields the no-tables outcome. -/
theorem C9_no_tables_outcome_witness : pipeline [] true = Outcome.noTables :=
  C9_no_tables_outcome [] true rfl (fun _ => rfl)

/-- C10: a page whose extraction returns a non-empty list containing only
tables of at most one row is still marked text-based, contributes no Step-1
frames, and is skipped by the OCR fallback. -/
theorem C10_unusable_tables_block_ocr (pages : List Page) (i : Nat) (p : Page)
    (hp : pages[i]? = some p) (hne : p.tables ≠ [])
    (hsmall : ∀ t ∈ p.tables, t.length ≤ 1) :
    i ∈ text_based_pages pages ∧ pageFrames p = [] ∧ ocrPageContrib pages (i, p) = [] := by
  have hmem : i ∈ text_based_pages pages := by
    simp only [text_based_pages, List.mem_map, List.mem_filter]
    exact ⟨(i, p), ⟨List.mk_mem_enum_iff_getElem?.mpr hp,
      by simpa [List.isEmpty_iff] using hne⟩, rfl⟩
  refine ⟨hmem, ?_, ?_⟩
  · rw [pageFrames, List.filter_eq_nil_iff.mpr ?_, List.map_nil]
    intro t ht
    have hlen := hsmall t ht
    unfold usableTable
    rw [decide_eq_false (by omega : ¬ (1 < t.length))]
    simp
  · simp [ocrPageContrib, hmem]

/-- C10 witness: a page with one single-row table is text-based and OCR is
skipped for it. -/
theorem C10_unusable_tables_block_ocr_witness :
    0 ∈ text_based_pages [⟨[[[some "h"]]], none, []⟩] ∧
    pageFrames ⟨[[[some "h"]]], none, []⟩ = [] ∧
    ocrPageContrib [⟨[[[some "h"]]], none, []⟩] (0, ⟨[[[some "h"]]], none, []⟩) = [] :=
  C10_unusable_tables_block_ocr [⟨[[[some "h"]]], none, []⟩] 0 ⟨[[[some "h"]]], none, []⟩
    rfl (by decide) (by decide)

end PdfToExcel
